import Mathlib

/-!
# Verification of `EnergyBand.py` (Kronig-Penney band structure)

Shallow embedding of the single-file Kronig-Penney band-structure module.
Real-valued numerics are modelled over `ℝ`.  The external root-finder
`scipy.optimize.fsolve` is out of scope (a documented black box), so it is
modelled as an abstract parameter `S : Solver`: `fsolve(f, x0, args)` only
accesses `args` by forming the univariate residual `K ↦ f(K, *args)`, hence a
solver is a function from a univariate residual and an initial guess to a root
estimate.  All definitions are parametric in the solver, so theorems proved for
every `S` hold in particular for `fsolve`.
-/

noncomputable section

/-- A black-box root finder: takes a univariate residual function and an
initial guess, returns a root estimate (`scipy.optimize.fsolve` contract,
out of scope of the spec). -/
def Solver : Type := (ℝ → ℝ) → ℝ → ℝ

/-- Function `_Kronig_Penney(K, k, a, U0b)` from `EnergyBand.py` line 12:
`U0b / (2*K) * sin(K * a) + cos(K * a) - cos(k * a)`. -/
def _Kronig_Penney (K k a U0b : ℝ) : ℝ :=
  U0b / (2 * K) * Real.sin (K * a) + Real.cos (K * a) - Real.cos (k * a)

/-- The mathematical definedness condition of the division `U0b / (2*K)`
performed by `_Kronig_Penney`: the divisor `2*K` is nonzero. -/
def KPdefinedAt (K : ℝ) : Prop := 2 * K ≠ 0

/-- The initial guess `(n + 1/2)*pi` handed to the root finder in `E`
(`EnergyBand.py` line 28). -/
def initialGuess (n : ℕ) : ℝ := ((n : ℝ) + 1 / 2) * Real.pi

/-- Scalar body of `E(k, n, a, U0b)` (`EnergyBand.py` lines 14-29):
`K = fsolve(_Kronig_Penney, (n + 1/2)*pi, args=(k, a, U0b)); return K**2`.
`fsolve` reads its `args` only through the univariate residual
`K ↦ _Kronig_Penney(K, k, a, U0b)`, which is what the solver receives here. -/
def E (S : Solver) (k : ℝ) (n : ℕ) (a U0b : ℝ) : ℝ :=
  (S (fun K => _Kronig_Penney K k a U0b) (initialGuess n)) ^ 2

/-- Energy `E` called without an explicit band index: the Python signature is
`def E(k, n=1, a=1, U0b=4, **kwargs)`, so the omitted band index is `1`. -/
def Edefault (S : Solver) (k a U0b : ℝ) : ℝ :=
  (S (fun K => _Kronig_Penney K k a U0b) (initialGuess 1)) ^ 2

/-- Energy `E` instrumented with the list of root-finder invocations its body makes,
each recorded as `(initial guess, k, a, U0b)`.  The body of `E` contains a
single `fsolve` call site, so the trace has one entry. -/
def EwithTrace (S : Solver) (k : ℝ) (n : ℕ) (a U0b : ℝ) :
    ℝ × List (ℝ × ℝ × ℝ × ℝ) :=
  (E S k n a U0b, [(initialGuess n, k, a, U0b)])

/-- Energy `E` applied to a sequence: `E` is decorated with `@np.vectorize`, which
applies the scalar function independently to each element of an array
argument, returning a same-shaped array. -/
def Evec (S : Solver) (ks : List ℝ) (n : ℕ) (a U0b : ℝ) : List ℝ :=
  ks.map (fun k => E S k n a U0b)

/-- Embedding of `np.linspace(lo, hi, num)`: `num` evenly spaced samples from `lo` to `hi`,
both endpoints included; sample `j` is `lo + (hi - lo) * j / (num - 1)`. -/
def linspace (lo hi : ℝ) (num : ℕ) : List ℝ :=
  (List.range num).map
    (fun (j : ℕ) => lo + (hi - lo) * (j : ℝ) / ((num - 1 : ℕ) : ℝ))

/-- Band assembler `getBands(n, a, U0b)` (`EnergyBand.py` lines 31-47):
`k = np.linspace(-pi/a, pi/a, 100); bands = [E(k, i, a, U0b=4) for i in range(n)]`.
Note the source passes the literal keyword `U0b=4` to `E`, not the caller's
`U0b` argument. -/
def getBands (S : Solver) (n : ℕ) (a U0b : ℝ) : List (List ℝ) :=
  (List.range n).map
    (fun i => Evec S (linspace (-(Real.pi / a)) (Real.pi / a) 100) i a 4)

/-- The legend label `"${}$-th band".format(i)` from `EnergyBand.py` line 73. -/
def bandLabel (i : ℕ) : String := "$" ++ Nat.repr i ++ "$-th band"

/-- The series handed to the rendering sink by `plotBands(n, a, U0b)`
(`EnergyBand.py` lines 49-84): for each `i, band in enumerate(bands)` one
`ax.plot(k, band, label="${}$-th band".format(i))` call, i.e. one
`(x-series, y-series, label)` triple. -/
def plotBands (S : Solver) (n : ℕ) (a U0b : ℝ) :
    List (List ℝ × List ℝ × String) :=
  ((getBands S n a U0b).enum).map
    (fun p => (linspace (-(Real.pi / a)) (Real.pi / a) 100, p.2, bandLabel p.1))

/-- A concrete conforming solver used for counterexamples and witnesses:
it returns the initial guess as its root estimate. -/
def guessSolver : Solver := fun _ g => g

/- ## Theorems -/

/-- C4: for every `K ≠ 0`, `k`, `a`, `U0b`, the dispersion residual equals
`(U0b / (2K))·sin(Ka) + cos(Ka) − cos(ka)`, and it is the Kronig-Penney
relation `(U0b/(2K))·sin(Ka) + cos(Ka) = cos(ka)` rearranged into
root-finding form: the residual vanishes exactly when the relation holds. -/
theorem kronigPenney_residual_spec (K k a U0b : ℝ) (hK : K ≠ 0) :
    _Kronig_Penney K k a U0b =
      U0b / (2 * K) * Real.sin (K * a) + Real.cos (K * a) - Real.cos (k * a) ∧
    (_Kronig_Penney K k a U0b = 0 ↔
      U0b / (2 * K) * Real.sin (K * a) + Real.cos (K * a) = Real.cos (k * a)) := by
  refine ⟨rfl, ?_⟩
  unfold _Kronig_Penney
  constructor
  · intro h
    linarith
  · intro h
    linarith

/-- Witness for C4 at `K = 1`, `k = 0`, `a = 1`, `U0b = 0`. -/
theorem kronigPenney_residual_spec_witness :
    (1 : ℝ) ≠ 0 ∧
    (_Kronig_Penney 1 0 1 0 =
      (0 : ℝ) / (2 * 1) * Real.sin (1 * 1) + Real.cos (1 * 1) - Real.cos (0 * 1) ∧
    (_Kronig_Penney 1 0 1 0 = 0 ↔
      (0 : ℝ) / (2 * 1) * Real.sin (1 * 1) + Real.cos (1 * 1) = Real.cos (0 * 1))) :=
  ⟨one_ne_zero, kronigPenney_residual_spec 1 0 1 0 one_ne_zero⟩

/-- C8: the residual's division by `2K` is undefined at `K = 0` (the divisor
vanishes), and for every band index `n ≥ 0` the initial guess `(n + 1/2)·π`
is nonzero, so the root finder is never seeded at `K = 0` and the divisor is
nonzero at the seed. -/
theorem seed_nonzero_spec :
    ¬ KPdefinedAt 0 ∧
    ∀ n : ℕ, initialGuess n ≠ 0 ∧ KPdefinedAt (initialGuess n) := by
  constructor
  · simp [KPdefinedAt]
  · intro n
    have hpos : (0 : ℝ) < ((n : ℝ) + 1 / 2) * Real.pi := by positivity
    have hne : initialGuess n ≠ 0 := by
      unfold initialGuess
      exact ne_of_gt hpos
    exact ⟨hne, by simpa [KPdefinedAt] using hne⟩

/-- C10: calling `getBands` with a zero band count returns the empty list of bands. -/
theorem getBands_zero_bands (S : Solver) (a U0b : ℝ) :
    getBands S 0 a U0b = [] := rfl

/-- C1 (code bug): the `U0b` argument of `getBands` has no effect on the
result, because the source passes the literal `U0b=4` to `E` for every band
(line 46), ignoring the caller's value.  In particular `bands[0][50]` cannot
be strictly increasing in `U0b`. -/
theorem getBands_ignores_U0b (S : Solver) (n : ℕ) (a U0b U0b' : ℝ) :
    getBands S n a U0b = getBands S n a U0b' := rfl

/-- C2 counterexample: the omitted band index does not behave like `n = 0`.
With the conforming solver that returns its initial guess, at
`k = 0, a = 1, U0b = 4` the default call returns `(3π/2)²` while
`n = 0` returns `(π/2)²`, and these differ. -/
theorem default_band_index_counterexample :
    Edefault guessSolver 0 1 4 ≠ E guessSolver 0 0 1 4 := by
  unfold Edefault E guessSolver initialGuess
  have hpi := Real.pi_pos
  intro h
  push_cast at h
  nlinarith [Real.pi_pos, sq_nonneg Real.pi]

/-- C2 amended: the Python signature is `def E(k, n=1, ...)`, so when the
energy operation is called without an explicit band index the band index
defaults to `1` (the second band): for every solver, `k`, `a`, `U0b`,
`energy(k)` equals `energy(k, n=1)`. -/
theorem default_band_index_is_one (S : Solver) (k a U0b : ℝ) :
    Edefault S k a U0b = E S k 1 a U0b := rfl

/-- C3: for every scalar `k`, band index `n`, `a`, `U0b`, `E` returns `K²`
where `K` is the value the black-box root finder produces on the dispersion
residual from the initial guess `(n + 1/2)·π` with extra arguments
`(k, a, U0b)`; the body makes exactly one root-finder invocation, with no
retry. -/
theorem E_single_solve_spec (S : Solver) (k : ℝ) (n : ℕ) (a U0b : ℝ) :
    E S k n a U0b =
      (S (fun K => _Kronig_Penney K k a U0b) (((n : ℝ) + 1 / 2) * Real.pi)) ^ 2 ∧
    (EwithTrace S k n a U0b).1 = E S k n a U0b ∧
    (EwithTrace S k n a U0b).2 = [(((n : ℝ) + 1 / 2) * Real.pi, k, a, U0b)] ∧
    (EwithTrace S k n a U0b).2.length = 1 :=
  ⟨rfl, rfl, rfl, rfl⟩

/-- Length of a `linspace` sample sequence. -/
theorem linspace_length (lo hi : ℝ) (num : ℕ) :
    (linspace lo hi num).length = num := by
  simp only [linspace, List.length_map, List.length_range]

/-- Closed form of a `linspace` sample. -/
theorem linspace_get (lo hi : ℝ) (num j : ℕ)
    (h : j < (linspace lo hi num).length) :
    (linspace lo hi num).get ⟨j, h⟩ =
      lo + (hi - lo) * (j : ℝ) / ((num - 1 : ℕ) : ℝ) := by
  simp only [linspace, List.get_eq_getElem, List.getElem_map, List.getElem_range]

/-- A 100-sample `linspace` starts at `lo`. -/
theorem linspace_first (lo hi : ℝ) : (linspace lo hi 100)[0]? = some lo := by
  simp only [linspace, List.getElem?_map,
    List.getElem?_range (by norm_num : (0 : ℕ) < 100), Option.map_some']
  norm_num

/-- A 100-sample `linspace` ends at `hi`. -/
theorem linspace_last (lo hi : ℝ) : (linspace lo hi 100)[99]? = some hi := by
  simp only [linspace, List.getElem?_map,
    List.getElem?_range (by norm_num : (99 : ℕ) < 100), Option.map_some']
  norm_num

/-- C5: the assembler `getBands` returns exactly `N` bands; band `i` is the elementwise
energy with band index `i` over the 100-sample wavenumber sequence, which is
evenly spaced over `[-π/a, π/a]` with both endpoints included. -/
theorem getBands_shape_spec (S : Solver) (N : ℕ) (a U0b : ℝ) (ha : 0 < a) :
    (getBands S N a U0b).length = N ∧
    (∀ i (hi : i < (getBands S N a U0b).length),
      (getBands S N a U0b).get ⟨i, hi⟩ =
        Evec S (linspace (-(Real.pi / a)) (Real.pi / a) 100) i a 4 ∧
      ((getBands S N a U0b).get ⟨i, hi⟩).length = 100) ∧
    (linspace (-(Real.pi / a)) (Real.pi / a) 100).length = 100 ∧
    (linspace (-(Real.pi / a)) (Real.pi / a) 100)[0]? = some (-(Real.pi / a)) ∧
    (linspace (-(Real.pi / a)) (Real.pi / a) 100)[99]? = some (Real.pi / a) ∧
    ∀ j (hj : j + 1 < (linspace (-(Real.pi / a)) (Real.pi / a) 100).length),
      (linspace (-(Real.pi / a)) (Real.pi / a) 100).get ⟨j + 1, hj⟩ -
        (linspace (-(Real.pi / a)) (Real.pi / a) 100).get ⟨j, Nat.lt_of_succ_lt hj⟩ =
      (Real.pi / a - -(Real.pi / a)) / 99 := by
  refine ⟨?_, ?_, linspace_length _ _ _, linspace_first _ _, linspace_last _ _, ?_⟩
  · simp only [getBands, List.length_map, List.length_range]
  · intro i hi
    constructor
    · simp only [getBands, List.get_eq_getElem, List.getElem_map, List.getElem_range]
    · simp only [getBands, List.get_eq_getElem, List.getElem_map, List.getElem_range,
        Evec, List.length_map, linspace_length]
  · intro j hj
    rw [linspace_get, linspace_get]
    have h99 : ((100 - 1 : ℕ) : ℝ) = 99 := by norm_num
    rw [h99]
    push_cast
    ring

/-- Witness for C5 at `S = guessSolver`, `N = 2`, `a = 1`, `U0b = 4`. -/
theorem getBands_shape_spec_witness :
    (0 : ℝ) < 1 ∧
    ((getBands guessSolver 2 1 4).length = 2 ∧
    (∀ i (hi : i < (getBands guessSolver 2 1 4).length),
      (getBands guessSolver 2 1 4).get ⟨i, hi⟩ =
        Evec guessSolver (linspace (-(Real.pi / 1)) (Real.pi / 1) 100) i 1 4 ∧
      ((getBands guessSolver 2 1 4).get ⟨i, hi⟩).length = 100) ∧
    (linspace (-(Real.pi / 1)) (Real.pi / 1) 100).length = 100 ∧
    (linspace (-(Real.pi / 1)) (Real.pi / 1) 100)[0]? = some (-(Real.pi / 1)) ∧
    (linspace (-(Real.pi / 1)) (Real.pi / 1) 100)[99]? = some (Real.pi / 1) ∧
    ∀ j (hj : j + 1 < (linspace (-(Real.pi / 1)) (Real.pi / 1) 100).length),
      (linspace (-(Real.pi / 1)) (Real.pi / 1) 100).get ⟨j + 1, hj⟩ -
        (linspace (-(Real.pi / 1)) (Real.pi / 1) 100).get ⟨j, Nat.lt_of_succ_lt hj⟩ =
      (Real.pi / 1 - -(Real.pi / 1)) / 99) :=
  ⟨by norm_num, getBands_shape_spec guessSolver 2 1 4 (by norm_num)⟩

/-- C6: when `k` is a sequence of length `m`, the vectorized energy returns a
sequence of the same length whose `j`-th element is the scalar energy of the
`j`-th element of `k`. -/
theorem E_elementwise_spec (S : Solver) (ks : List ℝ) (n : ℕ) (a U0b : ℝ)
    (m : ℕ) (hm : ks.length = m) :
    (Evec S ks n a U0b).length = m ∧
    ∀ j (h1 : j < ks.length) (h2 : j < (Evec S ks n a U0b).length),
      (Evec S ks n a U0b).get ⟨j, h2⟩ = E S (ks.get ⟨j, h1⟩) n a U0b := by
  subst hm
  constructor
  · simp [Evec]
  · intro j h1 h2
    simp [Evec]

/-- Witness for C6 at `ks = [0, 1]`, `m = 2`, `n = 0`, `a = 1`, `U0b = 4`. -/
theorem E_elementwise_spec_witness :
    ([(0 : ℝ), 1].length = 2) ∧
    ((Evec guessSolver [(0 : ℝ), 1] 0 1 4).length = 2 ∧
    ∀ j (h1 : j < [(0 : ℝ), 1].length)
      (h2 : j < (Evec guessSolver [(0 : ℝ), 1] 0 1 4).length),
      (Evec guessSolver [(0 : ℝ), 1] 0 1 4).get ⟨j, h2⟩ =
        E guessSolver ([(0 : ℝ), 1].get ⟨j, h1⟩) 0 1 4) :=
  ⟨rfl, E_elementwise_spec guessSolver [(0 : ℝ), 1] 0 1 4 2 rfl⟩

/-- C7: the energy is even in `k`: negating `k` changes the residual only
through `cos(k·a)`, which is even, so the residual function and hence the
solver call and the computed energy are unchanged. -/
theorem E_even_in_k (S : Solver) (k : ℝ) (n : ℕ) (a U0b : ℝ) :
    (∀ K, _Kronig_Penney K (-k) a U0b = _Kronig_Penney K k a U0b) ∧
    E S (-k) n a U0b = E S k n a U0b := by
  have hres : ∀ K, _Kronig_Penney K (-k) a U0b = _Kronig_Penney K k a U0b := by
    intro K
    unfold _Kronig_Penney
    rw [neg_mul, Real.cos_neg]
  refine ⟨hres, ?_⟩
  unfold E
  have : (fun K => _Kronig_Penney K (-k) a U0b) =
      (fun K => _Kronig_Penney K k a U0b) := funext hres
  rw [this]

/-- C9 counterexample: with one band, the single series handed to the
rendering sink carries the label `"$0$-th band"` (the index wrapped in TeX
math-mode dollar signs, from `"${}$-th band".format(i)`), which is not the
string `"0-th band"` the claim states. -/
theorem plotBands_label_counterexample :
    (plotBands guessSolver 1 1 4).map (fun t => t.2.2) = ["$0$-th band"] ∧
    ("$0$-th band" : String) ≠ "0-th band" := by
  constructor
  · rfl
  · decide

/-- C9 amended: the presenter `plotBands` hands exactly `N` `(wavenumber sequence, band
series, label)` triples to the rendering sink, where the `i`-th series is
band `i` over the 100-sample wavenumber sequence and carries the legend label
`"$i$-th band"` (the index wrapped in math-mode dollar signs). -/
theorem plotBands_series_spec (S : Solver) (N : ℕ) (a U0b : ℝ) :
    (plotBands S N a U0b).length = N ∧
    ∀ i, i < N →
      (plotBands S N a U0b)[i]? =
        some (linspace (-(Real.pi / a)) (Real.pi / a) 100,
          Evec S (linspace (-(Real.pi / a)) (Real.pi / a) 100) i a 4,
          "$" ++ Nat.repr i ++ "$-th band") := by
  constructor
  · simp only [plotBands, List.length_map, List.enum_length, getBands, List.length_range]
  · intro i hi
    simp only [plotBands, List.getElem?_map, List.getElem?_enum, getBands,
      List.getElem?_range hi, Option.map_some', bandLabel]

/-- Witness for C9 at `S = guessSolver`, `N = 1`, `a = 1`, `U0b = 4`. -/
theorem plotBands_series_spec_witness :
    (plotBands guessSolver 1 1 4).length = 1 ∧
    ∀ i, i < 1 →
      (plotBands guessSolver 1 1 4)[i]? =
        some (linspace (-(Real.pi / 1)) (Real.pi / 1) 100,
          Evec guessSolver (linspace (-(Real.pi / 1)) (Real.pi / 1) 100) i 1 4,
          "$" ++ Nat.repr i ++ "$-th band") :=
  plotBands_series_spec guessSolver 1 1 4

end
